import Mathlib

/-!
Shallow embedding of the connection multiplexing and client lifecycle
subsystem of the kvrocks front end (src/worker.cc, src/worker.h), together
with theorems settling the frozen claims about it.

The worker owns two ordered tables `fd -> Connection` (`conns_` and
`monitor_conns_`, a C++ `std::map` each), guarded by one mutex.  All the
operations verified here run under that mutex, so each operation is
embedded as an atomic state transformer on `WorkerState`.  The `std::map`
is embedded as an association list sorted by key with unique keys; object
identity of a heap-allocated `Redis::Connection*` is embedded as the
`ref` field of `Conn`, and mutation through a pointer as an update of the
table entries holding that `ref` (or, where the source can only reach the
entry through its key, of the entry at that key).
-/

namespace Kvrocks

/-- Modelled from the spec: the value space of the 64-bit atomic client-id
counter (`next_id` is a u64; `std::atomic<uint64_t>::fetch_add` wraps
modulo 2^64). -/
def u64Mod : Nat := 18446744073709551616

theorem u64Mod_eq_two_pow : u64Mod = 2 ^ 64 := by norm_num [u64Mod]

/-- Modelled from the spec: per-client state of `Redis::Connection`
(redis_connection is not under src/).  `ref` stands for the identity of
the heap object (the pointer value); `id` is `none` until `SetID` runs;
`evRead`/`evWrite` are the enabled bufferevent events; `output` is the
output buffer as the list of appended byte strings. -/
structure Conn where
  ref : Nat
  fd : Int
  id : Option Nat
  addr : String
  ns : String
  idleTime : Int
  monitorFlag : Bool
  closeAfterReply : Bool
  evRead : Bool
  evWrite : Bool
  output : List String
deriving DecidableEq, Repr

/-- Modelled from the spec: `Connection::GetID` (the id field of an
admitted connection; 0 stands for the default-initialized id of a
connection whose id was never assigned). -/
def connGetID (c : Conn) : Nat := c.id.getD 0

/-- Modelled from the spec: `Connection::SetID`. -/
def connSetID (i : Nat) (c : Conn) : Conn := { c with id := some i }

/-- Modelled from the spec: the process-wide `ClientRegistry` atomics
owned by `Server` (server.cc is not under src/): `client_count`,
`monitor_count`, and the `next_id` u64 counter. -/
structure ServerState where
  clientNum : Int
  monitorClientNum : Int
  nextClientId : Nat
deriving DecidableEq, Repr

/-- Modelled from the spec: `Server::IncrClientNum` increments
`client_count` and, being a `fetch_add`, returns the value the counter
held before the increment ("increment-then-compare to the cap"). -/
def incrClientNum (s : ServerState) : Int × ServerState :=
  (s.clientNum, { s with clientNum := s.clientNum + 1 })

/-- Modelled from the spec: `Server::DecrClientNum`. -/
def decrClientNum (s : ServerState) : ServerState :=
  { s with clientNum := s.clientNum - 1 }

/-- Modelled from the spec: `Server::IncrMonitorClientNum`. -/
def incrMonitorClientNum (s : ServerState) : ServerState :=
  { s with monitorClientNum := s.monitorClientNum + 1 }

/-- Modelled from the spec: `Server::DecrMonitorClientNum`. -/
def decrMonitorClientNum (s : ServerState) : ServerState :=
  { s with monitorClientNum := s.monitorClientNum - 1 }

/-- Modelled from the spec: `svr_->GetClientID()->fetch_add(1,
std::memory_order_relaxed)` — return the current u64 counter value and
store the successor modulo 2^64. -/
def clientIdFetchAdd (s : ServerState) : Nat × ServerState :=
  (s.nextClientId, { s with nextClientId := (s.nextClientId + 1) % u64Mod })

/-- Modelled from the spec: the `Status` values returned by the core
operations (status.h is not under src/): OK, or not-OK with a message. -/
inductive Status where
  | ok : Status
  | notOK : String → Status
deriving DecidableEq, Repr

/-- Modelled from the spec: `Status::IsOK`. -/
def Status.isOK : Status → Bool
  | .ok => true
  | .notOK _ => false

/-- Modelled from the spec: `Status::Msg`. -/
def Status.msg : Status → String
  | .ok => ""
  | .notOK m => m

/-- Lookup in a `std::map<int, Redis::Connection*>` embedded as an
association list: `conns_.find(fd)`. -/
def mapFind (fd : Int) : List (Int × Conn) → Option Conn
  | [] => none
  | (k, d) :: t => if k = fd then some d else mapFind fd t

/-- Sorted insertion that keeps an existing key, as `std::map::insert`
does (the source only inserts keys it has just checked to be absent). -/
def mapInsert (fd : Int) (c : Conn) : List (Int × Conn) → List (Int × Conn)
  | [] => [(fd, c)]
  | (k, d) :: t =>
    if fd < k then (fd, c) :: (k, d) :: t
    else if fd = k then (k, d) :: t
    else (k, d) :: mapInsert fd c t

/-- Sorted insert-or-overwrite, as `std::map::operator[]` assignment
(`monitor_conns_[conn->GetFD()] = conn`). -/
def mapAssign (fd : Int) (c : Conn) : List (Int × Conn) → List (Int × Conn)
  | [] => [(fd, c)]
  | (k, d) :: t =>
    if fd < k then (fd, c) :: (k, d) :: t
    else if fd = k then (fd, c) :: t
    else (k, d) :: mapAssign fd c t

/-- Erasure of a key: `conns_.erase(iter)` for the iterator found at
`fd` (keys are unique, so filtering the key out is the same). -/
def mapErase (fd : Int) (l : List (Int × Conn)) : List (Int × Conn) :=
  l.filter (fun p => decide (p.1 ≠ fd))

/-- Mutation through the pointer stored at key `fd`: replace the entry at
that key by the updated connection. -/
def mapUpdate (fd : Int) (g : Conn → Conn) : List (Int × Conn) → List (Int × Conn)
  | [] => []
  | (k, d) :: t =>
    if k = fd then (k, g d) :: mapUpdate fd g t
    else (k, d) :: mapUpdate fd g t

/-- The state a `Worker` guards under `conns_mu_`: the normal table
`conns_`, the monitor table `monitor_conns_`, the idle-scan cursor
`last_iter_conn_fd`, and (by reference) the server counters. -/
structure WorkerState where
  svr : ServerState
  conns : List (Int × Conn)
  monitorConns : List (Int × Conn)
  lastIterConnFd : Int
deriving DecidableEq, Repr

/-- The number of live connections across both tables of the worker. -/
def liveCount (s : WorkerState) : Nat :=
  s.conns.length + s.monitorConns.length

/-- `Worker::AddConnection` (worker.cc lines 130-145): under the lock,
reject a duplicate fd; otherwise increment the client count and reject
when the prior count already reached `maxclients` (decrementing back);
otherwise insert into the normal table, draw an id from the shared
counter and assign it to the inserted connection. -/
def addConnection (maxClients : Int) (c : Conn) (s : WorkerState) : Status × WorkerState :=
  if (mapFind c.fd s.conns).isSome then
    (.notOK "connection was exists", s)
  else
    let r := incrClientNum s.svr
    if maxClients ≤ r.1 then
      (.notOK "max number of clients reached", { s with svr := decrClientNum r.2 })
    else
      let conns1 := mapInsert c.fd c s.conns
      let a := clientIdFetchAdd r.2
      (.ok, { s with svr := a.2, conns := mapUpdate c.fd (connSetID a.1) conns1 })

/-- `Worker::RemoveConnection` (worker.cc lines 147-162): erase the fd
from the normal table and from the monitor table (each guarded by a
lookup), deleting the found connections and decrementing the counters.
The second component collects the destroyed connections (`delete
iter->second` closes the socket via `BEV_OPT_CLOSE_ON_FREE`). -/
def removeConnection (fd : Int) (s : WorkerState) : WorkerState × List Conn :=
  let r1 :=
    match mapFind fd s.conns with
    | some c => ({ s with conns := mapErase fd s.conns, svr := decrClientNum s.svr }, [c])
    | none => (s, ([] : List Conn))
  match mapFind fd r1.1.monitorConns with
  | some c =>
    ({ r1.1 with monitorConns := mapErase fd r1.1.monitorConns, svr := decrMonitorClientNum (decrClientNum r1.1.svr) }, r1.2 ++ [c])
  | none => r1

/-- `Worker::RemoveConnectionByID` (worker.cc lines 164-179): like
`RemoveConnection`, but each erase additionally requires the present
connection to carry the given id. -/
def removeConnectionByID (fd : Int) (i : Nat) (s : WorkerState) : WorkerState × List Conn :=
  let r1 :=
    match mapFind fd s.conns with
    | some c =>
      if connGetID c = i then
        ({ s with conns := mapErase fd s.conns, svr := decrClientNum s.svr }, [c])
      else (s, ([] : List Conn))
    | none => (s, ([] : List Conn))
  match mapFind fd r1.1.monitorConns with
  | some c =>
    if connGetID c = i then
      ({ r1.1 with monitorConns := mapErase fd r1.1.monitorConns, svr := decrMonitorClientNum (decrClientNum r1.1.svr) }, r1.2 ++ [c])
    else r1
  | none => r1

/-- `Worker::EnableWriteEvent` (worker.cc lines 181-190): look the fd up
in the normal table only; arm the write event on the found connection,
or return not-OK without side effects. -/
def enableWriteEvent (fd : Int) (s : WorkerState) : Status × WorkerState :=
  match mapFind fd s.conns with
  | some _ => (.ok, { s with conns := mapUpdate fd (fun c => { c with evWrite := true }) s.conns })
  | none => (.notOK "", s)

/-- `Worker::Reply` (worker.cc lines 192-200): look the fd up in the
normal table only; append the bytes to the found connection's output
buffer, or return not-OK without side effects. -/
def workerReply (fd : Int) (msg : String) (s : WorkerState) : Status × WorkerState :=
  match mapFind fd s.conns with
  | some _ =>
    (.ok, { s with conns := mapUpdate fd (fun c => { c with output := c.output ++ [msg] }) s.conns })
  | none => (.notOK "connection doesn\x27t exist", s)

/-- The kill matcher of `Worker::KillClient` (worker.cc line 259):
`(!addr.empty() && conn->GetAddr() == addr) || (id != 0 &&
conn->GetID() == id)`. -/
def killMatch (i : Nat) (addr : String) (c : Conn) : Bool :=
  (decide (addr ≠ "") && decide (c.addr = addr)) || (decide (i ≠ 0) && decide (connGetID c = i))

/-- The loop body of `Worker::KillClient` over the normal table, in
iteration order: skip `self` when `skipme`; on a match set the
`CloseAfterReply` flag, arm the write event and count the kill. -/
def killLoop (self : Conn) (i : Nat) (addr : String) (skipme : Bool) :
    List (Int × Conn) → List (Int × Conn) × Nat
  | [] => ([], 0)
  | p :: t =>
    let r := killLoop self i addr skipme t
    if skipme && decide (p.2.ref = self.ref) then (p :: r.1, r.2)
    else if killMatch i addr p.2 then
      ((p.1, { p.2 with closeAfterReply := true, evWrite := true }) :: r.1, r.2 + 1)
    else (p :: r.1, r.2)

/-- `Worker::KillClient` (worker.cc lines 254-268): run the loop over the
normal table and add the number of matches to the caller's `killed`
accumulator. -/
def killClient (self : Conn) (i : Nat) (addr : String) (skipme : Bool) (killed : Int)
    (s : WorkerState) : Int × WorkerState :=
  let r := killLoop self i addr skipme s.conns
  (killed + (r.2 : Int), { s with conns := r.1 })

/-- The per-entry effect of `KillClient`: an entry is flagged exactly
when it is not the skipped `self` and matches the kill matcher. -/
def shouldKill (self : Conn) (i : Nat) (addr : String) (skipme : Bool) (p : Int × Conn) : Bool :=
  !(skipme && decide (p.2.ref = self.ref)) && killMatch i addr p.2

/-- Characterization of the `KillClient` loop: it maps the flagging
function over the table and counts the entries satisfying `shouldKill`. -/
theorem killLoop_spec (self : Conn) (i : Nat) (addr : String) (skipme : Bool)
    (l : List (Int × Conn)) :
    killLoop self i addr skipme l =
      (l.map (fun p => if shouldKill self i addr skipme p
         then (p.1, { p.2 with closeAfterReply := true, evWrite := true }) else p),
       l.countP (shouldKill self i addr skipme)) := by
  induction l with
  | nil => rfl
  | cons p t ih =>
    simp only [killLoop, ih, List.map_cons, List.countP_cons, shouldKill]
    by_cases h1 : skipme && decide (p.2.ref = self.ref)
    · simp [h1]
    · by_cases h2 : killMatch i addr p.2
      · simp [h1, h2]
      · simp [h1, h2]

theorem mapFind_mem {fd : Int} {c : Conn} :
    ∀ {l : List (Int × Conn)}, mapFind fd l = some c → (fd, c) ∈ l
  | [], h => by simp [mapFind] at h
  | (k, d) :: t, h => by
    by_cases hk : k = fd
    · subst hk
      simp [mapFind] at h
      subst h
      exact List.mem_cons_self _ _
    · simp [mapFind, hk] at h
      exact List.mem_cons_of_mem _ (mapFind_mem h)

theorem mapFind_mapInsert_none {fd : Int} (c : Conn) :
    ∀ {l : List (Int × Conn)}, mapFind fd l = none → mapFind fd (mapInsert fd c l) = some c
  | [], _ => by simp [mapInsert, mapFind]
  | (k, d) :: t, h => by
    have hk : k ≠ fd := by
      intro he
      simp [mapFind, he] at h
    have ht : mapFind fd t = none := by simpa [mapFind, hk] using h
    by_cases hlt : fd < k
    · simp [mapInsert, hlt, mapFind]
    · have hne : ¬ fd = k := fun he => hk he.symm
      simp [mapInsert, hlt, hne, mapFind, hk, mapFind_mapInsert_none c ht]

theorem length_mapInsert_none {fd : Int} (c : Conn) :
    ∀ {l : List (Int × Conn)}, mapFind fd l = none →
      (mapInsert fd c l).length = l.length + 1
  | [], _ => by simp [mapInsert]
  | (k, d) :: t, h => by
    have hk : k ≠ fd := by
      intro he
      simp [mapFind, he] at h
    have ht : mapFind fd t = none := by simpa [mapFind, hk] using h
    by_cases hlt : fd < k
    · simp [mapInsert, hlt]
    · have hne : ¬ fd = k := fun he => hk he.symm
      simp [mapInsert, hlt, hne, length_mapInsert_none c ht]

theorem length_mapUpdate (fd : Int) (g : Conn → Conn) :
    ∀ (l : List (Int × Conn)), (mapUpdate fd g l).length = l.length
  | [] => rfl
  | (k, d) :: t => by
    by_cases h : k = fd
    · simp [mapUpdate, h, length_mapUpdate fd g t]
    · simp [mapUpdate, h, length_mapUpdate fd g t]

theorem mapFind_mapUpdate (k fd : Int) (g : Conn → Conn) :
    ∀ (l : List (Int × Conn)),
      mapFind k (mapUpdate fd g l) =
        if k = fd then (mapFind k l).map g else mapFind k l
  | [] => by simp [mapUpdate, mapFind]
  | (k0, d) :: t => by
    have ih := mapFind_mapUpdate k fd g t
    by_cases h0 : k0 = fd
    · subst h0
      by_cases hk : k0 = k
      · subst hk
        simp [mapUpdate, mapFind]
      · have hk' : ¬ k = k0 := fun he => hk he.symm
        simp [mapUpdate, mapFind, hk, hk', ih]
    · by_cases hk : k0 = k
      · subst hk
        simp [mapUpdate, mapFind, h0]
      · simp [mapUpdate, mapFind, h0, hk, ih]

theorem decr_incr_clientNum (sv : ServerState) :
    decrClientNum (incrClientNum sv).2 = sv := by
  simp [incrClientNum, decrClientNum]

/-- Claim C1: `AddConnection` rejects a duplicate fd with the client
count unchanged; otherwise it increments the count and rejects with the
max-clients error (count restored) when the prior count already reached
the cap; otherwise it inserts the connection with a freshly drawn id and
returns OK — and in every case the number of live connections stays at
most `maxclients` (given an accurate counter at most the cap). -/
theorem addConnection_admission (maxClients : Int) (c : Conn) (s : WorkerState)
    (hacc : s.svr.clientNum = (liveCount s : Int))
    (hcap : s.svr.clientNum ≤ maxClients) :
    ((mapFind c.fd s.conns).isSome →
       addConnection maxClients c s = (Status.notOK "connection was exists", s)) ∧
    (mapFind c.fd s.conns = none → maxClients ≤ s.svr.clientNum →
       addConnection maxClients c s = (Status.notOK "max number of clients reached", s)) ∧
    (mapFind c.fd s.conns = none → s.svr.clientNum < maxClients →
       (addConnection maxClients c s).1 = Status.ok ∧
       (addConnection maxClients c s).2.svr.clientNum = s.svr.clientNum + 1 ∧
       mapFind c.fd (addConnection maxClients c s).2.conns =
         some (connSetID s.svr.nextClientId c) ∧
       (addConnection maxClients c s).2.monitorConns = s.monitorConns) ∧
    ((liveCount (addConnection maxClients c s).2 : Int) ≤ maxClients) := by
  obtain ⟨⟨cn, mn, ni⟩, conns, mons, cursor⟩ := s
  have hacc' : cn = ((conns.length + mons.length : Nat) : Int) := by
    simpa [liveCount] using hacc
  have hcap' : cn ≤ maxClients := hcap
  by_cases h : (mapFind c.fd conns).isSome
  · have hres : addConnection maxClients c ⟨⟨cn, mn, ni⟩, conns, mons, cursor⟩ =
        (Status.notOK "connection was exists", ⟨⟨cn, mn, ni⟩, conns, mons, cursor⟩) := by
      simp [addConnection, h]
    refine ⟨fun _ => hres, ?_, ?_, ?_⟩
    · intro h2 _
      rw [h2] at h
      simp at h
    · intro h2 _
      rw [h2] at h
      simp at h
    · rw [hres]
      simp only [liveCount]
      omega
  · have hnone : mapFind c.fd conns = none := by
      cases he : mapFind c.fd conns with
      | none => rfl
      | some d => rw [he] at h; simp at h
    by_cases h2 : maxClients ≤ cn
    · have hres : addConnection maxClients c ⟨⟨cn, mn, ni⟩, conns, mons, cursor⟩ =
          (Status.notOK "max number of clients reached", ⟨⟨cn, mn, ni⟩, conns, mons, cursor⟩) := by
        simp [addConnection, hnone, incrClientNum, decrClientNum, h2]
      refine ⟨fun hs => absurd hs (by simp [hnone]), fun _ _ => hres, ?_, ?_⟩
      · intro _ hlt
        exact absurd h2 (not_le.mpr hlt)
      · rw [hres]
        simp only [liveCount]
        omega
    · have hlt := lt_of_not_le h2
      have hres : addConnection maxClients c ⟨⟨cn, mn, ni⟩, conns, mons, cursor⟩ =
          (Status.ok, ⟨⟨cn + 1, mn, (ni + 1) % u64Mod⟩,
            mapUpdate c.fd (connSetID ni) (mapInsert c.fd c conns), mons, cursor⟩) := by
        simp [addConnection, hnone, incrClientNum, decrClientNum, clientIdFetchAdd, h2]
      refine ⟨fun hs => absurd hs (by simp [hnone]), ?_, fun _ _ => ?_, ?_⟩
      · intro _ hle
        exact absurd hle h2
      · refine ⟨by rw [hres], by rw [hres], ?_, by rw [hres]⟩
        rw [hres]
        simp only
        rw [mapFind_mapUpdate, if_pos rfl, mapFind_mapInsert_none c hnone]
        rfl
      · rw [hres]
        simp only [liveCount, length_mapUpdate, length_mapInsert_none c hnone]
        omega

/-- A concrete connection used by witnesses. -/
def cA : Conn :=
  { ref := 1, fd := 4, id := none, addr := "1.2.3.4:5", ns := "__namespace",
    idleTime := 0, monitorFlag := false, closeAfterReply := false,
    evRead := false, evWrite := false, output := [] }

/-- A concrete empty worker state used by witnesses. -/
def wsEmpty : WorkerState :=
  { svr := { clientNum := 0, monitorClientNum := 0, nextClientId := 0 },
    conns := [], monitorConns := [], lastIterConnFd := 0 }

theorem addConnection_admission_witness :
    (liveCount (addConnection 2 cA wsEmpty).2 : Int) ≤ 2 :=
  (addConnection_admission 2 cA wsEmpty (by decide) (by decide)).2.2.2

/-- Modelled from the spec: the well-known default namespace token
(`kDefaultNamespace`, declared outside src/). Its concrete value is
irrelevant to the claims; only equality with it matters. -/
def kDefaultNamespace : String := "__namespace"

/-- Modelled from the spec: `Redis::SimpleString` — RESP simple string
encoding `+...CRLF` (redis_reply is not under src/). -/
def simpleString (s : String) : String := "+" ++ s ++ "\r\n"

/-- Modelled from the spec: `Redis::Error` — RESP error encoding
`-...CRLF` (redis_reply is not under src/). -/
def redisError (msg : String) : String := "-" ++ msg ++ "\r\n"

/-- `Worker::BecomeMonitorConn` (worker.cc lines 202-209): under the
lock, erase the fd from the normal table and assign the connection into
the monitor table; then increment the monitor count and set the
`kMonitor` flag on the object (reflected in the entry holding it). -/
def becomeMonitorConn (conn : Conn) (s : WorkerState) : WorkerState :=
  let s1 := { s with conns := mapErase conn.fd s.conns,
                     monitorConns := mapAssign conn.fd conn s.monitorConns }
  let s2 := { s1 with svr := incrMonitorClientNum s1.svr }
  { s2 with monitorConns := mapUpdate conn.fd (fun c => { c with monitorFlag := true }) s2.monitorConns }

/-- The monitor feed line composed by `Worker::FeedMonitorConns`
(worker.cc lines 212-219): `sec.usec [0 addr] "tok1" "tok2" ...`. -/
def monitorFeedLine (sec usec : Int) (addr : String) (tokens : List String) : String :=
  tokens.foldl (fun o t => o ++ " \"" ++ t ++ "\"")
    (toString sec ++ "." ++ toString usec ++ " [0 " ++ addr ++ "]")

/-- `Worker::FeedMonitorConns` (worker.cc lines 211-228): compose the
feed line and, under the lock, append it as a RESP simple string to the
output buffer of every monitor-table connection except the source
itself (`conn == iter.second`, a pointer comparison) whose namespace
equals the source's namespace or is the default namespace. -/
def feedMonitorConns (sec usec : Int) (conn : Conn) (tokens : List String)
    (s : WorkerState) : WorkerState :=
  let line := monitorFeedLine sec usec conn.addr tokens
  { s with monitorConns := s.monitorConns.map (fun p =>
      if conn.ref = p.2.ref then p
      else if conn.ns = p.2.ns ∨ p.2.ns = kDefaultNamespace then
        (p.1, { p.2 with output := p.2.output ++ [simpleString line] })
      else p) }

/-- `Worker::newConnection` (worker.cc lines 53-88): wrap the accepted
fd in a fresh connection with the read event enabled, try admission, set
the peer address on the object, and on a not-OK status write one RESP
error to the raw fd and call `RemoveConnection(conn->GetFD())`.  The
result collects the byte strings written to the peer's raw fd, whether
any destroyed connection closed that fd (`BEV_OPT_CLOSE_ON_FREE` closes
a socket exactly when the connection holding it is deleted), and the
final state. -/
def newConnection (maxClients : Int) (peerAddr : Option String) (c0 : Conn)
    (s : WorkerState) : List String × Bool × WorkerState :=
  let c := { c0 with evRead := true }
  let r := addConnection maxClients c s
  let s2 := match peerAddr with
    | some a =>
      let conns2 := r.2.conns.map (fun p => if p.2.ref = c.ref then (p.1, { p.2 with addr := a }) else p)
      { r.2 with conns := conns2 }
    | none => r.2
  if r.1.isOK then ([], false, s2)
  else
    let rm := removeConnection c.fd s2
    ([redisError ("ERR " ++ r.1.msg)], rm.2.any (fun d => decide (d.fd = c.fd)), rm.1)

/-- Claim C9: `EnableWriteEvent` and `Reply` look up only the normal
table, so for a connection promoted to the monitor table (fd present
there and absent from the normal table) both return a not-OK status and
leave the whole worker state — in particular the connection's output
buffer and event mask — unchanged. -/
theorem monitor_unreachable_by_reply (fd : Int) (m : Conn) (msg : String) (s : WorkerState)
    (_hmem : (fd, m) ∈ s.monitorConns) (hnot : mapFind fd s.conns = none) :
    enableWriteEvent fd s = (Status.notOK "", s) ∧
    workerReply fd msg s = (Status.notOK "connection doesn\x27t exist", s) := by
  constructor
  · simp [enableWriteEvent, hnot]
  · simp [workerReply, hnot]

/-- A concrete monitor-table connection used by witnesses. -/
def cM : Conn :=
  { ref := 2, fd := 7, id := some 5, addr := "5.6.7.8:9", ns := "__namespace",
    idleTime := 0, monitorFlag := true, closeAfterReply := false,
    evRead := true, evWrite := false, output := [] }

/-- A concrete worker state whose only connection is the monitor `cM`. -/
def wsM : WorkerState :=
  { svr := { clientNum := 1, monitorClientNum := 1, nextClientId := 6 },
    conns := [], monitorConns := [(7, cM)], lastIterConnFd := 0 }

theorem monitor_unreachable_by_reply_witness :
    enableWriteEvent 7 wsM = (Status.notOK "", wsM) ∧
    workerReply 7 "+OK\r\n" wsM = (Status.notOK "connection doesn\x27t exist", wsM) :=
  monitor_unreachable_by_reply 7 cM "+OK\r\n" wsM (by decide) (by decide)

/-- A concrete admitted connection filling the only `maxclients = 1`
slot in `wsOne`. -/
def wsOne : WorkerState :=
  { svr := { clientNum := 1, monitorClientNum := 0, nextClientId := 7 },
    conns := [(4, connSetID 3 cA)], monitorConns := [], lastIterConnFd := 0 }

/-- A concrete freshly accepted connection (fd 5) used to probe the
admission-rejection path. -/
def cB : Conn :=
  { ref := 2, fd := 5, id := none, addr := "", ns := "__namespace",
    idleTime := 0, monitorFlag := false, closeAfterReply := false,
    evRead := false, evWrite := false, output := [] }

/-- Claim C2 (code bug): at a cap rejection `newConnection` writes
exactly one RESP error carrying the reason, but the subsequent
`RemoveConnection(conn->GetFD())` finds the rejected connection in
neither table — it was never inserted — so it destroys nothing and the
peer socket is never closed, and the worker state is left unchanged;
the spec says the socket is closed after the error. -/
theorem newConnection_cap_reject_socket_not_closed :
    (newConnection 1 (some "9.9.9.9:1") cB wsOne).1 =
      [redisError ("ERR " ++ "max number of clients reached")] ∧
    (newConnection 1 (some "9.9.9.9:1") cB wsOne).2.1 = false ∧
    (newConnection 1 (some "9.9.9.9:1") cB wsOne).2.2 = wsOne := by decide

/-- Claim C4: a monitor-table connection receives the composed feed line
exactly when it is not the source connection itself and its namespace
equals the source's namespace or is the default namespace. -/
theorem feedMonitorConns_filter (sec usec : Int) (src : Conn) (tokens : List String)
    (s : WorkerState) (fdm : Int) (m : Conn)
    (hmem : (fdm, m) ∈ s.monitorConns) :
    ∃ m', (fdm, m') ∈ (feedMonitorConns sec usec src tokens s).monitorConns ∧
      m' = (if src.ref = m.ref then m
            else if src.ns = m.ns ∨ m.ns = kDefaultNamespace then
              { m with output := m.output ++
                [simpleString (monitorFeedLine sec usec src.addr tokens)] }
            else m) ∧
      ((m'.output ≠ m.output) ↔
        (src.ref ≠ m.ref ∧ (src.ns = m.ns ∨ m.ns = kDefaultNamespace))) := by
  have hmap : ∀ (F : Int × Conn → Int × Conn), F (fdm, m) ∈ s.monitorConns.map F :=
    fun F => List.mem_map_of_mem F hmem
  by_cases h1 : src.ref = m.ref
  · refine ⟨m, ?_, by simp [h1], by simp [h1]⟩
    have := hmap (fun p =>
      if src.ref = p.2.ref then p
      else if src.ns = p.2.ns ∨ p.2.ns = kDefaultNamespace then
        (p.1, { p.2 with output := p.2.output ++
          [simpleString (monitorFeedLine sec usec src.addr tokens)] })
      else p)
    simpa [feedMonitorConns, h1] using this
  · by_cases h2 : src.ns = m.ns ∨ m.ns = kDefaultNamespace
    · refine ⟨{ m with output := m.output ++
        [simpleString (monitorFeedLine sec usec src.addr tokens)] }, ?_, by simp [h1, h2], ?_⟩
      · have := hmap (fun p =>
          if src.ref = p.2.ref then p
          else if src.ns = p.2.ns ∨ p.2.ns = kDefaultNamespace then
            (p.1, { p.2 with output := p.2.output ++
              [simpleString (monitorFeedLine sec usec src.addr tokens)] })
          else p)
        simpa [feedMonitorConns, h1, h2] using this
      · simp only
        constructor
        · intro _
          exact ⟨h1, h2⟩
        · intro _ he
          have := congrArg List.length he
          simp at this
    · refine ⟨m, ?_, by simp [h1, h2], by simp [h2]⟩
      have := hmap (fun p =>
        if src.ref = p.2.ref then p
        else if src.ns = p.2.ns ∨ p.2.ns = kDefaultNamespace then
          (p.1, { p.2 with output := p.2.output ++
            [simpleString (monitorFeedLine sec usec src.addr tokens)] })
        else p)
      simpa [feedMonitorConns, h1, h2] using this

/-- A second concrete monitor (namespace `ns1`) used by the C4 witness. -/
def cM1 : Conn :=
  { ref := 10, fd := 8, id := some 9, addr := "1.1.1.1:2", ns := "ns1",
    idleTime := 0, monitorFlag := true, closeAfterReply := false,
    evRead := true, evWrite := false, output := [] }

/-- A concrete source connection (namespace `ns1`) used by the C4
witness. -/
def cSrc : Conn :=
  { ref := 9, fd := 6, id := some 8, addr := "2.2.2.2:3", ns := "ns1",
    idleTime := 0, monitorFlag := false, closeAfterReply := false,
    evRead := true, evWrite := false, output := [] }

/-- A concrete worker state with one monitor, used by the C4 witness. -/
def wsFeed : WorkerState :=
  { svr := { clientNum := 2, monitorClientNum := 1, nextClientId := 10 },
    conns := [(6, cSrc)], monitorConns := [(8, cM1)], lastIterConnFd := 0 }

theorem feedMonitorConns_filter_witness :
    ∃ m', (8, m') ∈ (feedMonitorConns 12 34 cSrc ["GET", "k"] wsFeed).monitorConns ∧
      m' = (if cSrc.ref = cM1.ref then cM1
            else if cSrc.ns = cM1.ns ∨ cM1.ns = kDefaultNamespace then
              { cM1 with output := cM1.output ++
                [simpleString (monitorFeedLine 12 34 cSrc.addr ["GET", "k"])] }
            else cM1) ∧
      ((m'.output ≠ cM1.output) ↔
        (cSrc.ref ≠ cM1.ref ∧ (cSrc.ns = cM1.ns ∨ cM1.ns = kDefaultNamespace))) :=
  feedMonitorConns_filter 12 34 cSrc ["GET", "k"] wsFeed 8 cM1 (by decide)

/-- Claim C10: `KillClient` matches a connection by id only when the
requested id is nonzero and by addr only when the requested addr string
is non-empty; with `id == 0` and an empty addr it flags no connection,
reports zero matches and leaves the worker state unchanged. -/
theorem killClient_zero_matcher (self : Conn) (i : Nat) (addr : String) (skipme : Bool)
    (killed : Int) (s : WorkerState) (c : Conn) :
    killMatch 0 addr c = (decide (addr ≠ "") && decide (c.addr = addr)) ∧
    killMatch i "" c = (decide (i ≠ 0) && decide (connGetID c = i)) ∧
    killClient self 0 "" skipme killed s = (killed, s) := by
  refine ⟨by simp [killMatch], by simp [killMatch], ?_⟩
  have hmatch : ∀ d : Conn, killMatch 0 "" d = false := by intro d; simp [killMatch]
  have hsk : ∀ p : Int × Conn, shouldKill self 0 "" skipme p = false := by
    intro p; simp [shouldKill, hmatch]
  have hcount : s.conns.countP (shouldKill self 0 "" skipme) = 0 := by
    simp [List.countP_eq_zero, hsk]
  have hmap : s.conns.map (fun p => if shouldKill self 0 "" skipme p
      then (p.1, { p.2 with closeAfterReply := true, evWrite := true }) else p) = s.conns := by
    calc s.conns.map (fun p => if shouldKill self 0 "" skipme p
          then (p.1, { p.2 with closeAfterReply := true, evWrite := true }) else p)
        = s.conns.map id := List.map_congr_left (by intro a _; simp [hsk])
      _ = s.conns := List.map_id s.conns
  simp [killClient, killLoop_spec, hcount, hmap]

/-- Claim C6: `KillClient` flags (CloseAfterReply set, write event
armed) exactly the normal-table connections that match the kill matcher
and are not the skipped `self`; it adds exactly the number of such
matches to the caller's counter, touches nothing else, and never flags
`self` when `skipme` is set. -/
theorem killClient_matches (self : Conn) (i : Nat) (addr : String) (skipme : Bool)
    (killed : Int) (s : WorkerState) :
    (killClient self i addr skipme killed s).2.conns =
      s.conns.map (fun p => if shouldKill self i addr skipme p
        then (p.1, { p.2 with closeAfterReply := true, evWrite := true }) else p) ∧
    (killClient self i addr skipme killed s).1 =
      killed + ((s.conns.countP (shouldKill self i addr skipme) : Nat) : Int) ∧
    (killClient self i addr skipme killed s).2.monitorConns = s.monitorConns ∧
    (killClient self i addr skipme killed s).2.svr = s.svr ∧
    (∀ p ∈ s.conns, skipme = true → p.2.ref = self.ref →
      p ∈ (killClient self i addr skipme killed s).2.conns) := by
  simp only [killClient, killLoop_spec]
  refine ⟨trivial, trivial, trivial, trivial, ?_⟩
  intro p hp hsk href
  have hno : shouldKill self i addr skipme p = false := by
    simp [shouldKill, hsk, href]
  have hmem := List.mem_map_of_mem (fun p => if shouldKill self i addr skipme p
    then (p.1, { p.2 with closeAfterReply := true, evWrite := true }) else p) hp
  simpa [hno] using hmem

/-- A concrete connection issuing a kill, used by the C6 witness. -/
def cK : Conn :=
  { ref := 3, fd := 5, id := some 7, addr := "3.3.3.3:4", ns := "__namespace",
    idleTime := 0, monitorFlag := false, closeAfterReply := false,
    evRead := true, evWrite := false, output := [] }

/-- A concrete two-connection state used by the C6 witness. -/
def wsKill : WorkerState :=
  { svr := { clientNum := 2, monitorClientNum := 0, nextClientId := 8 },
    conns := [(4, connSetID 3 cA), (5, cK)], monitorConns := [], lastIterConnFd := 0 }

theorem killClient_matches_witness :
    (5, cK) ∈ (killClient cK 0 "1.2.3.4:5" true 0 wsKill).2.conns :=
  (killClient_matches cK 0 "1.2.3.4:5" true 0 wsKill).2.2.2.2 (5, cK) (by decide) rfl rfl

/-- `Worker::TimerCB` (worker.cc lines 46-51): every timer tick, do
nothing when the configured timeout is 0, otherwise run
`KickoutIdleClients(timeout)`.  This is the only caller of
`KickoutIdleClients`, so it is the program's `kick_idle_clients`. -/
def collectIdle (timeout : Int) (l : List (Int × Conn)) : List (Int × Nat) :=
  (l.filter (fun p => decide (timeout ≤ p.2.idleTime))).map (fun p => (p.1, connGetID p.2))

/-- The fd of the last element of the visited list, or the default when
nothing was visited (the `iter--; last_iter_conn_fd = iter->first` step
after the scan loop). -/
def lastVisitedFd (d : Int) (l : List (Int × Conn)) : Int :=
  l.foldl (fun _x p => p.1) d

/-- The scan loop of `Worker::KickoutIdleClients` (worker.cc lines
279-285): `iterations` times, wrap the iterator to the beginning of the
whole table when it is at the end, collect the `(fd, id)` of the
current connection when its idle time reached the timeout, remember the
visited fd, and advance. -/
def scanLoop (timeout : Int) (all : List (Int × Conn)) :
    Nat → List (Int × Conn) → List (Int × Nat) → Int → List (Int × Nat) × Int
  | 0, _iter, acc, lastFd => (acc, lastFd)
  | n + 1, iter0, acc, lastFd =>
    match (if iter0.isEmpty then all else iter0) with
    | [] => (acc, lastFd)
    | (fd, c) :: rest =>
      scanLoop timeout all n rest
        (if timeout ≤ c.idleTime then acc ++ [(fd, connGetID c)] else acc) fd

/-- `Worker::KickoutIdleClients` (worker.cc lines 270-293): under the
lock, return at once on an empty table; otherwise scan
`min(size, 50)` connections starting at `upper_bound(last_iter_conn_fd)`
(the first key strictly greater than the cursor; on a sorted table this
is `dropWhile (key <= cursor)`), record the last visited fd as the new
cursor, and after unlocking remove each collected `(fd, id)` pair with
`RemoveConnectionByID`. -/
def kickoutIdleClients (timeout : Int) (s : WorkerState) : WorkerState :=
  if s.conns.isEmpty then s
  else
    let iterations := min s.conns.length 50
    let start := s.conns.dropWhile (fun p => decide (p.1 ≤ s.lastIterConnFd))
    let r := scanLoop timeout s.conns iterations start [] s.lastIterConnFd
    let s1 := { s with lastIterConnFd := r.2 }
    r.1.foldl (fun st pr => (removeConnectionByID pr.1 pr.2 st).1) s1

/-- `Worker::TimerCB` (worker.cc lines 46-51). -/
def timerCB (timeout : Int) (s : WorkerState) : WorkerState :=
  if timeout = 0 then s else kickoutIdleClients timeout s

/-- The first `n` elements of the table rotated to start right after
the entries satisfying `pred` (a prefix of the sorted table). -/
def visitedConns' (pred : Int × Conn → Bool) (n : Nat) (l : List (Int × Conn)) :
    List (Int × Conn) :=
  (l.dropWhile pred ++ l.takeWhile pred).take n

/-- The visited connections as the spec words them: at most `n` (= 50)
connections starting strictly after the cursor, wrapping to the
beginning of the table. -/
def visitedConns (cursor : Int) (n : Nat) (l : List (Int × Conn)) : List (Int × Conn) :=
  visitedConns' (fun p => decide (p.1 ≤ cursor)) n l

/-- The spec's `kick_idle_clients(timeout_sec)`, following its words:
no-op when the timeout is 0; otherwise visit at most 50 connections
starting strictly after the cursor (wrapping to the beginning), collect
the visited `(fd, id)` pairs whose idle time meets or exceeds the
threshold, advance the cursor to the last-visited fd, and afterwards
remove each collected pair via `remove_if_id`. -/
def kickIdleSpec (timeout : Int) (s : WorkerState) : WorkerState :=
  if timeout = 0 then s
  else
    let visited := visitedConns s.lastIterConnFd (min s.conns.length 50) s.conns
    let s1 := { s with lastIterConnFd := lastVisitedFd s.lastIterConnFd visited }
    (collectIdle timeout visited).foldl (fun st pr => (removeConnectionByID pr.1 pr.2 st).1) s1

theorem collectIdle_cons (timeout : Int) (p : Int × Conn) (l : List (Int × Conn)) :
    collectIdle timeout (p :: l) =
      (if timeout ≤ p.2.idleTime then [(p.1, connGetID p.2)] else []) ++ collectIdle timeout l := by
  by_cases h : timeout ≤ p.2.idleTime
  · simp [collectIdle, h]
  · simp [collectIdle, h]

theorem lastVisitedFd_cons (d : Int) (p : Int × Conn) (l : List (Int × Conn)) :
    lastVisitedFd d (p :: l) = lastVisitedFd p.1 l := rfl

/-- Closed form of the scan loop: with the iterator at `S` (a suffix of
the table) and at most `all.length` iterations to go, the loop visits
the first `n` elements of `S ++ all` (wrapping at most once), collects
the idle ones and ends on the last visited fd. -/
theorem scanLoop_eq (timeout : Int) (all : List (Int × Conn)) (hne : all ≠ []) :
    ∀ (n : Nat) (S : List (Int × Conn)) (acc : List (Int × Nat)) (lastFd : Int),
      n ≤ all.length →
      scanLoop timeout all n S acc lastFd =
        (acc ++ collectIdle timeout ((S ++ all).take n),
         lastVisitedFd lastFd ((S ++ all).take n)) := by
  intro n
  induction n with
  | zero =>
    intro S acc lastFd _
    simp [scanLoop, collectIdle, lastVisitedFd]
  | succ n ih =>
    intro S acc lastFd hn
    match S with
    | [] =>
      match all, hne with
      | a :: as, _ =>
        have hn' : n ≤ as.length := by
          have := hn
          simp at this
          omega
        have hstep : scanLoop timeout (a :: as) (n + 1) [] acc lastFd =
            scanLoop timeout (a :: as) n as
              (if timeout ≤ a.2.idleTime then acc ++ [(a.1, connGetID a.2)] else acc) a.1 := by
          simp only [scanLoop, List.isEmpty_nil]
          rfl
        rw [hstep, ih _ _ _ (le_trans hn' (by simp))]
        have htake : (as ++ a :: as).take n = as.take n :=
          List.take_append_of_le_length hn'
        rw [htake]
        have htake2 : (([] ++ a :: as) : List (Int × Conn)).take (n + 1) = a :: as.take n := by
          simp
        rw [htake2, collectIdle_cons, lastVisitedFd_cons]
        by_cases h : timeout ≤ a.2.idleTime
        · simp [h]
        · simp [h]
    | p :: rest =>
      have hn' : n ≤ all.length := by omega
      have hstep : scanLoop timeout all (n + 1) (p :: rest) acc lastFd =
          scanLoop timeout all n rest
            (if timeout ≤ p.2.idleTime then acc ++ [(p.1, connGetID p.2)] else acc) p.1 := by
        simp only [scanLoop, List.isEmpty_cons]
        rfl
      rw [hstep, ih _ _ _ hn']
      have htake : ((p :: rest) ++ all).take (n + 1) = p :: (rest ++ all).take n := by
        simp
      rw [htake, collectIdle_cons, lastVisitedFd_cons]
      by_cases h : timeout ≤ p.2.idleTime
      · simp [h]
      · simp [h]

/-- Taking at most the table's length from the scan sequence never
reaches the second copy of the table, so the wrap visits the rotated
table `dropWhile ++ takeWhile`. -/
theorem take_rotation (L : List (Int × Conn)) (pred : Int × Conn → Bool) (n : Nat)
    (hn : n ≤ L.length) :
    (L.dropWhile pred ++ L).take n = visitedConns' pred n L := by
  have hsplit : L.takeWhile pred ++ L.dropWhile pred = L :=
    List.takeWhile_append_dropWhile pred L
  have hlen : (L.dropWhile pred ++ L.takeWhile pred).length = L.length := by
    have := congrArg List.length hsplit
    rw [List.length_append] at this
    rw [List.length_append]
    omega
  unfold visitedConns'
  nth_rewrite 2 [← hsplit]
  rw [← List.append_assoc]
  exact List.take_append_of_le_length (by rw [hlen]; exact hn)

/-- Claim C5: the program's `kick_idle_clients` (the timer callback
composed with `KickoutIdleClients`) coincides with the spec's
description: a no-op at timeout 0; otherwise it visits at most 50
connections starting strictly after the cursor fd (wrapping to the
beginning), collects exactly the visited `(fd, id)` pairs whose idle
time meets or exceeds the threshold, advances the cursor to the
last-visited fd, and removes each collected pair via
`RemoveConnectionByID` afterwards. -/
theorem kickIdleClients_refines_spec (timeout : Int) (s : WorkerState) :
    timerCB timeout s = kickIdleSpec timeout s := by
  by_cases h0 : timeout = 0
  · simp [timerCB, kickIdleSpec, h0]
  · simp only [timerCB, kickIdleSpec, if_neg h0]
    by_cases hemp : s.conns.isEmpty
    · have hc : s.conns = [] := List.isEmpty_iff.mp hemp
      obtain ⟨sv, conns, mons, cur⟩ := s
      simp only at hc
      subst hc
      simp [kickoutIdleClients, visitedConns, visitedConns', collectIdle, lastVisitedFd]
    · have hc : s.conns ≠ [] := by
        intro he
        rw [he] at hemp
        simp at hemp
      have hemp' : s.conns.isEmpty = false := by
        cases hce : s.conns.isEmpty
        · rfl
        · exact absurd hce (by simp [hemp])
      have hn : min s.conns.length 50 ≤ s.conns.length := Nat.min_le_left _ _
      simp only [kickoutIdleClients, hemp', Bool.false_eq_true, if_false]
      rw [scanLoop_eq timeout s.conns hc _ _ _ _ hn]
      rw [show (s.conns.dropWhile (fun p => decide (p.1 ≤ s.lastIterConnFd)) ++
          s.conns).take (min s.conns.length 50) =
          visitedConns s.lastIterConnFd (min s.conns.length 50) s.conns from
        take_rotation s.conns _ _ hn]
      simp

theorem mem_mapErase {p : Int × Conn} {fd : Int} {l : List (Int × Conn)}
    (h : p ∈ mapErase fd l) : p ∈ l :=
  (List.mem_filter.mp h).1

theorem mem_mapInsert {p : Int × Conn} (fd : Int) (c : Conn) :
    ∀ {l : List (Int × Conn)}, p ∈ mapInsert fd c l → p = (fd, c) ∨ p ∈ l
  | [], h => Or.inl (by simpa [mapInsert] using h)
  | (k, d) :: t, h => by
    by_cases h1 : fd < k
    · simp only [mapInsert, if_pos h1] at h
      rcases List.mem_cons.mp h with h | h
      · exact Or.inl h
      · exact Or.inr h
    · by_cases h2 : fd = k
      · simp only [mapInsert, if_neg h1, if_pos h2] at h
        exact Or.inr h
      · simp only [mapInsert, if_neg h1, if_neg h2] at h
        rcases List.mem_cons.mp h with h | h
        · exact Or.inr (List.mem_cons.mpr (Or.inl h))
        · rcases mem_mapInsert fd c h with h | h
          · exact Or.inl h
          · exact Or.inr (List.mem_cons.mpr (Or.inr h))

theorem mem_mapAssign {p : Int × Conn} (fd : Int) (c : Conn) :
    ∀ {l : List (Int × Conn)}, p ∈ mapAssign fd c l → p = (fd, c) ∨ p ∈ l
  | [], h => Or.inl (by simpa [mapAssign] using h)
  | (k, d) :: t, h => by
    by_cases h1 : fd < k
    · simp only [mapAssign, if_pos h1] at h
      rcases List.mem_cons.mp h with h | h
      · exact Or.inl h
      · exact Or.inr h
    · by_cases h2 : fd = k
      · simp only [mapAssign, if_neg h1, if_pos h2] at h
        rcases List.mem_cons.mp h with h | h
        · exact Or.inl h
        · exact Or.inr (List.mem_cons.mpr (Or.inr h))
      · simp only [mapAssign, if_neg h1, if_neg h2] at h
        rcases List.mem_cons.mp h with h | h
        · exact Or.inr (List.mem_cons.mpr (Or.inl h))
        · rcases mem_mapAssign fd c h with h | h
          · exact Or.inl h
          · exact Or.inr (List.mem_cons.mpr (Or.inr h))

theorem mem_mapUpdate {p : Int × Conn} (fd : Int) (g : Conn → Conn) :
    ∀ {l : List (Int × Conn)}, p ∈ mapUpdate fd g l →
      (∃ q ∈ l, q.1 = fd ∧ p = (q.1, g q.2)) ∨ (p ∈ l ∧ p.1 ≠ fd)
  | [], h => by simp [mapUpdate] at h
  | (k, d) :: t, h => by
    by_cases h1 : k = fd
    · simp only [mapUpdate, if_pos h1] at h
      rcases List.mem_cons.mp h with h | h
      · exact Or.inl ⟨(k, d), List.mem_cons_self _ _, h1, h⟩
      · rcases mem_mapUpdate fd g h with ⟨q, hq, hqfd, hpe⟩ | ⟨hm, hne⟩
        · exact Or.inl ⟨q, List.mem_cons_of_mem _ hq, hqfd, hpe⟩
        · exact Or.inr ⟨List.mem_cons_of_mem _ hm, hne⟩
    · simp only [mapUpdate, if_neg h1] at h
      rcases List.mem_cons.mp h with h | h
      · refine Or.inr ⟨List.mem_cons.mpr (Or.inl h), ?_⟩
        rw [h]
        exact h1
      · rcases mem_mapUpdate fd g h with ⟨q, hq, hqfd, hpe⟩ | ⟨hm, hne⟩
        · exact Or.inl ⟨q, List.mem_cons_of_mem _ hq, hqfd, hpe⟩
        · exact Or.inr ⟨List.mem_cons_of_mem _ hm, hne⟩

/-- The three possible shapes of the state after `AddConnection`:
rejected with the state untouched, rejected with only the counter
touched-and-restored, or admitted with the connection inserted and its
id set. -/
theorem addConnection_table_cases (maxClients : Int) (c : Conn) (s : WorkerState) :
    ((addConnection maxClients c s).2.conns = s.conns ∧
     (addConnection maxClients c s).2.monitorConns = s.monitorConns) ∨
    (mapFind c.fd s.conns = none ∧
     (addConnection maxClients c s).2.conns =
        mapUpdate c.fd (connSetID s.svr.nextClientId) (mapInsert c.fd c s.conns) ∧
     (addConnection maxClients c s).2.monitorConns = s.monitorConns) := by
  unfold addConnection
  by_cases h : (mapFind c.fd s.conns).isSome
  · simp [h]
  · have hnone : mapFind c.fd s.conns = none := by
      cases he : mapFind c.fd s.conns with
      | none => rfl
      | some d => rw [he] at h; simp at h
    by_cases h2 : maxClients ≤ s.svr.clientNum
    · simp [h, h2, incrClientNum, clientIdFetchAdd]
    · simp [h, h2, hnone, incrClientNum, clientIdFetchAdd]

/-- The tables after `RemoveConnection`: each is either untouched or has
the fd erased. -/
theorem removeConnection_table_cases (fd : Int) (s : WorkerState) :
    ((removeConnection fd s).1.conns = s.conns ∨
     (removeConnection fd s).1.conns = mapErase fd s.conns) ∧
    ((removeConnection fd s).1.monitorConns = s.monitorConns ∨
     (removeConnection fd s).1.monitorConns = mapErase fd s.monitorConns) := by
  unfold removeConnection
  cases h1 : mapFind fd s.conns with
  | none =>
    cases h2 : mapFind fd s.monitorConns with
    | none => simp [h1, h2]
    | some d => simp [h1, h2]
  | some d =>
    cases h2 : mapFind fd s.monitorConns with
    | none => simp [h1, h2]
    | some e => simp [h1, h2]

/-- The tables after `RemoveConnectionByID`: each is either untouched or
has the fd erased. -/
theorem removeConnectionByID_table_cases (fd : Int) (i : Nat) (s : WorkerState) :
    ((removeConnectionByID fd i s).1.conns = s.conns ∨
     (removeConnectionByID fd i s).1.conns = mapErase fd s.conns) ∧
    ((removeConnectionByID fd i s).1.monitorConns = s.monitorConns ∨
     (removeConnectionByID fd i s).1.monitorConns = mapErase fd s.monitorConns) := by
  unfold removeConnectionByID
  cases h1 : mapFind fd s.conns with
  | none =>
    cases h2 : mapFind fd s.monitorConns with
    | none => simp [h1, h2]
    | some d =>
      by_cases hid : connGetID d = i
      · simp [h1, h2, hid]
      · simp [h1, h2, hid]
  | some d =>
    by_cases hid : connGetID d = i
    · cases h2 : mapFind fd s.monitorConns with
      | none => simp [h1, h2, hid]
      | some e =>
        by_cases hid2 : connGetID e = i
        · simp [h1, h2, hid, hid2]
        · simp [h1, h2, hid, hid2]
    · cases h2 : mapFind fd s.monitorConns with
      | none => simp [h1, h2, hid]
      | some e =>
        by_cases hid2 : connGetID e = i
        · simp [h1, h2, hid, hid2]
        · simp [h1, h2, hid, hid2]

/-- The tables after `EnableWriteEvent`. -/
theorem enableWriteEvent_table_cases (fd : Int) (s : WorkerState) :
    ((enableWriteEvent fd s).2.conns = s.conns ∨
     (enableWriteEvent fd s).2.conns =
       mapUpdate fd (fun c => { c with evWrite := true }) s.conns) ∧
    (enableWriteEvent fd s).2.monitorConns = s.monitorConns := by
  unfold enableWriteEvent
  cases h : mapFind fd s.conns with
  | none => simp [h]
  | some d => simp [h]

/-- The tables after `Worker::Reply`. -/
theorem workerReply_table_cases (fd : Int) (msg : String) (s : WorkerState) :
    ((workerReply fd msg s).2.conns = s.conns ∨
     (workerReply fd msg s).2.conns =
       mapUpdate fd (fun c => { c with output := c.output ++ [msg] }) s.conns) ∧
    (workerReply fd msg s).2.monitorConns = s.monitorConns := by
  unfold workerReply
  cases h : mapFind fd s.conns with
  | none => simp [h]
  | some d => simp [h]

/-- The tables after `BecomeMonitorConn`. -/
theorem becomeMonitorConn_tables (conn : Conn) (s : WorkerState) :
    (becomeMonitorConn conn s).conns = mapErase conn.fd s.conns ∧
    (becomeMonitorConn conn s).monitorConns =
      mapUpdate conn.fd (fun c => { c with monitorFlag := true })
        (mapAssign conn.fd conn s.monitorConns) :=
  ⟨rfl, rfl⟩

/-- All connections in either table of the worker carry an assigned id. -/
def idsSet (s : WorkerState) : Bool :=
  (s.conns ++ s.monitorConns).all (fun p => p.2.id.isSome)

theorem idsSet_iff (s : WorkerState) :
    idsSet s = true ↔
      (∀ p ∈ s.conns, p.2.id.isSome = true) ∧
      (∀ p ∈ s.monitorConns, p.2.id.isSome = true) := by
  simp [idsSet, List.all_eq_true, List.mem_append, or_imp, forall_and]

theorem ids_of_mapErase {l : List (Int × Conn)} {fd : Int}
    (hl : ∀ p ∈ l, p.2.id.isSome = true) :
    ∀ p ∈ mapErase fd l, p.2.id.isSome = true :=
  fun p hp => hl p (mem_mapErase hp)

theorem ids_of_mapUpdate {l : List (Int × Conn)} {fd : Int} {g : Conn → Conn}
    (hl : ∀ p ∈ l, p.2.id.isSome = true)
    (hg : ∀ c : Conn, c.id.isSome = true → (g c).id.isSome = true) :
    ∀ p ∈ mapUpdate fd g l, p.2.id.isSome = true := by
  intro p hp
  rcases mem_mapUpdate fd g hp with ⟨q, hq, _, hpe⟩ | ⟨hm, _⟩
  · rw [hpe]
    exact hg _ (hl q hq)
  · exact hl p hm

theorem ids_of_admit {conns : List (Int × Conn)} (c : Conn) (ni : Nat)
    (hl : ∀ p ∈ conns, p.2.id.isSome = true) :
    ∀ p ∈ mapUpdate c.fd (connSetID ni) (mapInsert c.fd c conns),
      p.2.id.isSome = true := by
  intro p hp
  rcases mem_mapUpdate c.fd (connSetID ni) hp with ⟨q, hq, _, hpe⟩ | ⟨hm, hne⟩
  · rw [hpe]
    simp [connSetID]
  · rcases mem_mapInsert c.fd c hm with he | hm2
    · rw [he] at hne
      simp at hne
    · exact hl p hm2

/-- The normal table after `KillClient`, as a map over the old one
(projection of `killLoop_spec` reusable in invariant proofs). -/
theorem killLoop_conns_eq (self : Conn) (i : Nat) (addr : String) (skipme : Bool)
    (killed : Int) (s : WorkerState) :
    (killClient self i addr skipme killed s).2.conns =
      s.conns.map (fun p => if shouldKill self i addr skipme p
        then (p.1, { p.2 with closeAfterReply := true, evWrite := true }) else p) := by
  simp [killClient, killLoop_spec]

/-- Claim C3: every connection visible in a worker's tables carries an
assigned id, and each operation — including admission, which assigns
the drawn id to the inserted connection before releasing the table lock
— preserves this, so no admin operation (client listing, kill, removal
by id, reply) can observe a table connection whose id is unset. -/
theorem ids_assigned_before_visible (maxClients : Int) (c mc self : Conn) (fd : Int)
    (i : Nat) (addr msg : String) (skipme : Bool) (killed sec usec : Int)
    (tokens : List String) (s : WorkerState)
    (hids : idsSet s = true) (hmc : mapFind mc.fd s.conns = some mc) :
    idsSet (addConnection maxClients c s).2 = true ∧
    idsSet (removeConnection fd s).1 = true ∧
    idsSet (removeConnectionByID fd i s).1 = true ∧
    idsSet (enableWriteEvent fd s).2 = true ∧
    idsSet (workerReply fd msg s).2 = true ∧
    idsSet (killClient self i addr skipme killed s).2 = true ∧
    idsSet (feedMonitorConns sec usec self tokens s) = true ∧
    idsSet (becomeMonitorConn mc s) = true := by
  obtain ⟨hconns, hmons⟩ := (idsSet_iff s).mp hids
  refine ⟨?_, ?_, ?_, ?_, ?_, ?_, ?_, ?_⟩
  · rcases addConnection_table_cases maxClients c s with ⟨hA, hB⟩ | ⟨_, hA, hB⟩
    · exact (idsSet_iff _).mpr ⟨by rw [hA]; exact hconns, by rw [hB]; exact hmons⟩
    · refine (idsSet_iff _).mpr ⟨?_, by rw [hB]; exact hmons⟩
      rw [hA]
      exact ids_of_admit c _ hconns
  · obtain ⟨hA, hB⟩ := removeConnection_table_cases fd s
    refine (idsSet_iff _).mpr ⟨?_, ?_⟩
    · rcases hA with hA | hA <;> rw [hA]
      · exact hconns
      · exact ids_of_mapErase hconns
    · rcases hB with hB | hB <;> rw [hB]
      · exact hmons
      · exact ids_of_mapErase hmons
  · obtain ⟨hA, hB⟩ := removeConnectionByID_table_cases fd i s
    refine (idsSet_iff _).mpr ⟨?_, ?_⟩
    · rcases hA with hA | hA <;> rw [hA]
      · exact hconns
      · exact ids_of_mapErase hconns
    · rcases hB with hB | hB <;> rw [hB]
      · exact hmons
      · exact ids_of_mapErase hmons
  · obtain ⟨hA, hB⟩ := enableWriteEvent_table_cases fd s
    refine (idsSet_iff _).mpr ⟨?_, by rw [hB]; exact hmons⟩
    rcases hA with hA | hA <;> rw [hA]
    · exact hconns
    · exact ids_of_mapUpdate hconns (by intro d hd; simpa using hd)
  · obtain ⟨hA, hB⟩ := workerReply_table_cases fd msg s
    refine (idsSet_iff _).mpr ⟨?_, by rw [hB]; exact hmons⟩
    rcases hA with hA | hA <;> rw [hA]
    · exact hconns
    · exact ids_of_mapUpdate hconns (by intro d hd; simpa using hd)
  · refine (idsSet_iff _).mpr ⟨?_, ?_⟩
    · rw [(killLoop_conns_eq self i addr skipme killed s)]
      intro p hp
      rcases List.mem_map.mp hp with ⟨q, hq, hpe⟩
      rw [← hpe]
      by_cases hk : shouldKill self i addr skipme q
      · simpa [hk] using hconns q hq
      · simpa [hk] using hconns q hq
    · have : (killClient self i addr skipme killed s).2.monitorConns = s.monitorConns := by
        simp [killClient]
      rw [this]
      exact hmons
  · refine (idsSet_iff _).mpr ⟨by exact hconns, ?_⟩
    intro p hp
    rcases List.mem_map.mp hp with ⟨q, hq, hpe⟩
    rw [← hpe]
    by_cases h1 : self.ref = q.2.ref
    · simpa [h1] using hmons q hq
    · by_cases h2 : self.ns = q.2.ns ∨ q.2.ns = kDefaultNamespace
      · simpa [h1, h2] using hmons q hq
      · simpa [h1, h2] using hmons q hq
  · obtain ⟨hA, hB⟩ := becomeMonitorConn_tables mc s
    refine (idsSet_iff _).mpr ⟨by rw [hA]; exact ids_of_mapErase hconns, ?_⟩
    rw [hB]
    have hmcid : mc.id.isSome = true := hconns (mc.fd, mc) (mapFind_mem hmc)
    intro p hp
    rcases mem_mapUpdate mc.fd _ hp with ⟨q, hq, _, hpe⟩ | ⟨hm, hne⟩
    · rw [hpe]
      rcases mem_mapAssign mc.fd mc hq with he | hq2
      · rw [he]
        simpa using hmcid
      · simpa using hmons q hq2
    · rcases mem_mapAssign mc.fd mc hm with he | hm2
      · rw [he] at hne
        simp at hne
      · exact hmons p hm2

theorem ids_assigned_before_visible_witness :
    idsSet (becomeMonitorConn cK wsKill) = true :=
  (ids_assigned_before_visible 5 cB cK cK 4 0 "" "" false 0 0 0 [] wsKill
    (by decide) (by decide)).2.2.2.2.2.2.2

/-- The server-side id counter after `k` admissions have each executed
the `fetch_add` of worker.cc line 142. -/
def serverAfterAllocs (s : ServerState) : Nat → ServerState
  | 0 => s
  | k + 1 => (clientIdFetchAdd (serverAfterAllocs s k)).2

/-- The id handed to the `k`-th admission (0-indexed): the value
returned by its `fetch_add` on the shared `next_id` counter. -/
def allocatedId (s : ServerState) (k : Nat) : Nat :=
  (clientIdFetchAdd (serverAfterAllocs s k)).1

theorem nextClientId_serverAfterAllocs (s : ServerState) (h : s.nextClientId < u64Mod) :
    ∀ k, (serverAfterAllocs s k).nextClientId = (s.nextClientId + k) % u64Mod
  | 0 => by
    simp [serverAfterAllocs, Nat.mod_eq_of_lt h]
  | k + 1 => by
    have ih := nextClientId_serverAfterAllocs s h k
    simp only [serverAfterAllocs, clientIdFetchAdd, ih]
    simp only [u64Mod]
    omega

theorem allocatedId_eq (s : ServerState) (h : s.nextClientId < u64Mod) (k : Nat) :
    allocatedId s k = (s.nextClientId + k) % u64Mod :=
  nextClientId_serverAfterAllocs s h k

/-- Claim C7 fails as stated: the id counter is a 64-bit `fetch_add`
that wraps modulo 2^64, so with the counter started at 0 the 0-th and
the 2^64-th admissions are handed the same id even though they are
distinct admissions. -/
theorem allocatedId_wraps_counterexample :
    allocatedId { clientNum := 0, monitorClientNum := 0, nextClientId := 0 } 0 =
      allocatedId { clientNum := 0, monitorClientNum := 0, nextClientId := 0 } u64Mod ∧
    (0 : Nat) ≠ u64Mod := by
  constructor
  · have h := allocatedId_eq { clientNum := 0, monitorClientNum := 0, nextClientId := 0 }
      (by simp [u64Mod]) u64Mod
    rw [h]
    simp [allocatedId, serverAfterAllocs, clientIdFetchAdd]
  · simp [u64Mod]

/-- Claim C7 amended: ids are drawn from the shared `next_id` counter by
`fetch_add` modulo 2^64; any two admissions fewer than 2^64 allocations
apart receive distinct ids, and ids increase monotonically as long as
the counter does not wrap. -/
theorem allocatedId_distinct_amended (s : ServerState) (i j : Nat)
    (h0 : s.nextClientId < u64Mod) (hij : i < j) (hbound : j < i + u64Mod) :
    allocatedId s i ≠ allocatedId s j ∧
    (s.nextClientId + j < u64Mod → allocatedId s i < allocatedId s j) := by
  have hAi := allocatedId_eq s h0 i
  have hAj := allocatedId_eq s h0 j
  constructor
  · rw [hAi, hAj]
    intro he
    have hdvd : u64Mod ∣ (s.nextClientId + j) - (s.nextClientId + i) :=
      (Nat.modEq_iff_dvd' (by omega)).mp he
    have hle : u64Mod ≤ (s.nextClientId + j) - (s.nextClientId + i) :=
      Nat.le_of_dvd (by omega) hdvd
    omega
  · intro hw
    rw [hAi, hAj, Nat.mod_eq_of_lt (by omega), Nat.mod_eq_of_lt hw]
    omega

theorem allocatedId_distinct_amended_witness :
    allocatedId { clientNum := 0, monitorClientNum := 0, nextClientId := 0 } 0 ≠
      allocatedId { clientNum := 0, monitorClientNum := 0, nextClientId := 0 } 1 :=
  (allocatedId_distinct_amended { clientNum := 0, monitorClientNum := 0, nextClientId := 0 }
    0 1 (by simp [u64Mod]) (by omega) (by simp [u64Mod])).1

/-- The identity (pointer value) of the connection stored in a table
entry. -/
def entryRef (p : Int × Conn) : Nat := p.2.ref

/-- The identities of all connections across both tables. -/
def tableRefs (s : WorkerState) : List Nat :=
  (s.conns ++ s.monitorConns).map entryRef

/-- No connection object occurs twice across the two tables: each live
connection sits in exactly one table entry. -/
def RefsNodup (s : WorkerState) : Prop := (tableRefs s).Nodup

instance (s : WorkerState) : Decidable (RefsNodup s) := by
  unfold RefsNodup
  infer_instance

theorem ref_unique {s : WorkerState} (hnd : RefsNodup s) {p : Int × Conn}
    (hp : p ∈ s.conns ++ s.monitorConns) :
    ∀ q ∈ s.conns ++ s.monitorConns, q.2.ref = p.2.ref → q = p := by
  intro q hq he
  exact List.inj_on_of_nodup_map hnd hq hp (by simpa [entryRef] using he)

theorem refs_disjoint {s : WorkerState} (hnd : RefsNodup s) :
    ∀ p ∈ s.conns, ∀ q ∈ s.monitorConns, p.2.ref ≠ q.2.ref := by
  intro p hp q hq he
  have hmapped : ((s.conns.map entryRef) ++ (s.monitorConns.map entryRef)).Nodup := by
    have := hnd
    rw [RefsNodup, tableRefs, List.map_append] at this
    exact this
  have hdisj := List.disjoint_of_nodup_append hmapped
  exact hdisj (List.mem_map_of_mem entryRef hp)
    (by rw [show entryRef p = entryRef q from he]; exact List.mem_map_of_mem entryRef hq)

theorem mem_mapErase' {p : Int × Conn} {fd : Int} {l : List (Int × Conn)}
    (h : p ∈ mapErase fd l) : p ∈ l ∧ p.1 ≠ fd := by
  have h2 := List.mem_filter.mp h
  exact ⟨h2.1, by simpa using h2.2⟩

theorem ref_not_elsewhere_conns {s : WorkerState} (hnd : RefsNodup s) {fd0 : Int} {d : Conn}
    (hd : (fd0, d) ∈ s.conns) :
    (∀ q ∈ s.conns, q.1 ≠ fd0 → q.2.ref ≠ d.ref) ∧
    (∀ q ∈ s.monitorConns, q.2.ref ≠ d.ref) := by
  constructor
  · intro q hq hqfd he
    have hqe : q = (fd0, d) :=
      ref_unique hnd (List.mem_append.mpr (Or.inl hd)) q (List.mem_append.mpr (Or.inl hq)) he
    rw [hqe] at hqfd
    exact hqfd rfl
  · intro q hq he
    exact (refs_disjoint hnd (fd0, d) hd q hq) he.symm

theorem ref_not_elsewhere_monitors {s : WorkerState} (hnd : RefsNodup s) {fd0 : Int} {d : Conn}
    (hd : (fd0, d) ∈ s.monitorConns) :
    (∀ q ∈ s.monitorConns, q.1 ≠ fd0 → q.2.ref ≠ d.ref) ∧
    (∀ q ∈ s.conns, q.2.ref ≠ d.ref) := by
  constructor
  · intro q hq hqfd he
    have hqe : q = (fd0, d) :=
      ref_unique hnd (List.mem_append.mpr (Or.inr hd)) q (List.mem_append.mpr (Or.inr hq)) he
    rw [hqe] at hqfd
    exact hqfd rfl
  · intro q hq he
    exact (refs_disjoint hnd q hq (fd0, d) hd) he

theorem nodup_refs_of_sublists {A B : List (Int × Conn)} {s : WorkerState} (hnd : RefsNodup s)
    (hA : List.Sublist A s.conns) (hB : List.Sublist B s.monitorConns) :
    ((A ++ B).map entryRef).Nodup :=
  List.Nodup.sublist (List.Sublist.map entryRef (List.Sublist.append hA hB)) hnd

theorem mapErase_sublist (fd : Int) (l : List (Int × Conn)) :
    List.Sublist (mapErase fd l) l :=
  List.filter_sublist l

theorem nodup_mid {a : Nat} {X Y : List Nat} (h : (X ++ Y).Nodup) (ha : a ∉ X ++ Y) :
    (X ++ a :: Y).Nodup := by
  rw [List.nodup_middle]
  exact List.nodup_cons.mpr ⟨ha, h⟩

theorem refs_mapUpdate (fd : Int) (g : Conn → Conn) (hg : ∀ c, (g c).ref = c.ref) :
    ∀ l : List (Int × Conn), (mapUpdate fd g l).map entryRef = l.map entryRef
  | [] => rfl
  | (k, d) :: t => by
    by_cases h : k = fd
    · simp [mapUpdate, h, entryRef, hg, refs_mapUpdate fd g hg t]
    · simp [mapUpdate, h, entryRef, refs_mapUpdate fd g hg t]

theorem mapInsert_split (fd : Int) (c : Conn) :
    ∀ {l : List (Int × Conn)}, mapFind fd l = none →
      ∃ l1 l2, l = l1 ++ l2 ∧ mapInsert fd c l = l1 ++ (fd, c) :: l2
  | [], _ => ⟨[], [], rfl, rfl⟩
  | (k, d) :: t, h => by
    have hk : k ≠ fd := by
      intro he
      simp [mapFind, he] at h
    have ht : mapFind fd t = none := by simpa [mapFind, hk] using h
    by_cases h1 : fd < k
    · exact ⟨[], (k, d) :: t, rfl, by simp [mapInsert, h1]⟩
    · have h2 : ¬ fd = k := fun he => hk he.symm
      obtain ⟨l1, l2, he, hi⟩ := mapInsert_split fd c ht
      refine ⟨(k, d) :: l1, l2, by simp [he], ?_⟩
      simp [mapInsert, h1, h2, hi]

theorem mapAssign_split (fd : Int) (c : Conn) :
    ∀ (l : List (Int × Conn)),
      ∃ l1 mid l2, l = l1 ++ mid ++ l2 ∧ mid.length ≤ 1 ∧
        mapAssign fd c l = l1 ++ (fd, c) :: l2
  | [] => ⟨[], [], [], rfl, by simp, rfl⟩
  | (k, d) :: t => by
    by_cases h1 : fd < k
    · exact ⟨[], [], (k, d) :: t, rfl, by simp, by simp [mapAssign, h1]⟩
    · by_cases h2 : fd = k
      · exact ⟨[], [(k, d)], t, rfl, by simp, by simp [mapAssign, h1, h2]⟩
      · obtain ⟨l1, mid, l2, he, hm, hi⟩ := mapAssign_split fd c t
        refine ⟨(k, d) :: l1, mid, l2, by simp [he], hm, ?_⟩
        simp [mapAssign, h1, h2, hi]

/-- Shapes of `RemoveConnection`: nothing found, found in the normal
table, found in the monitor table, or found in both; the found entries
are the destroyed connections and their table is erased at the fd. -/
theorem removeConnection_cases (fd : Int) (s : WorkerState) :
    (mapFind fd s.conns = none ∧ mapFind fd s.monitorConns = none ∧
      (removeConnection fd s).1 = s ∧ (removeConnection fd s).2 = []) ∨
    (∃ c1, mapFind fd s.conns = some c1 ∧ mapFind fd s.monitorConns = none ∧
      (removeConnection fd s).1.conns = mapErase fd s.conns ∧
      (removeConnection fd s).1.monitorConns = s.monitorConns ∧
      (removeConnection fd s).2 = [c1]) ∨
    (∃ c2, mapFind fd s.conns = none ∧ mapFind fd s.monitorConns = some c2 ∧
      (removeConnection fd s).1.conns = s.conns ∧
      (removeConnection fd s).1.monitorConns = mapErase fd s.monitorConns ∧
      (removeConnection fd s).2 = [c2]) ∨
    (∃ c1 c2, mapFind fd s.conns = some c1 ∧ mapFind fd s.monitorConns = some c2 ∧
      (removeConnection fd s).1.conns = mapErase fd s.conns ∧
      (removeConnection fd s).1.monitorConns = mapErase fd s.monitorConns ∧
      (removeConnection fd s).2 = [c1, c2]) := by
  unfold removeConnection
  cases h1 : mapFind fd s.conns with
  | none =>
    cases h2 : mapFind fd s.monitorConns with
    | none => exact Or.inl ⟨rfl, rfl, by simp [h1, h2], by simp [h1, h2]⟩
    | some c2 => exact Or.inr (Or.inr (Or.inl ⟨c2, rfl, rfl, by simp [h1, h2],
        by simp [h1, h2], by simp [h1, h2]⟩))
  | some c1 =>
    cases h2 : mapFind fd s.monitorConns with
    | none => exact Or.inr (Or.inl ⟨c1, rfl, rfl, by simp [h1, h2],
        by simp [h1, h2], by simp [h1, h2]⟩)
    | some c2 => exact Or.inr (Or.inr (Or.inr ⟨c1, c2, rfl, rfl, by simp [h1, h2],
        by simp [h1, h2], by simp [h1, h2]⟩))

/-- Shapes of `RemoveConnectionByID`: like `removeConnection_cases`,
with each erase additionally guarded by the id match. -/
theorem removeConnectionByID_cases (fd : Int) (i : Nat) (s : WorkerState) :
    ((removeConnectionByID fd i s).1 = s ∧ (removeConnectionByID fd i s).2 = []) ∨
    (∃ c1, mapFind fd s.conns = some c1 ∧
      (removeConnectionByID fd i s).1.conns = mapErase fd s.conns ∧
      (removeConnectionByID fd i s).1.monitorConns = s.monitorConns ∧
      (removeConnectionByID fd i s).2 = [c1]) ∨
    (∃ c2, mapFind fd s.monitorConns = some c2 ∧
      (removeConnectionByID fd i s).1.conns = s.conns ∧
      (removeConnectionByID fd i s).1.monitorConns = mapErase fd s.monitorConns ∧
      (removeConnectionByID fd i s).2 = [c2]) ∨
    (∃ c1 c2, mapFind fd s.conns = some c1 ∧ mapFind fd s.monitorConns = some c2 ∧
      (removeConnectionByID fd i s).1.conns = mapErase fd s.conns ∧
      (removeConnectionByID fd i s).1.monitorConns = mapErase fd s.monitorConns ∧
      (removeConnectionByID fd i s).2 = [c1, c2]) := by
  unfold removeConnectionByID
  cases h1 : mapFind fd s.conns with
  | none =>
    cases h2 : mapFind fd s.monitorConns with
    | none => exact Or.inl ⟨by simp [h1, h2], by simp [h1, h2]⟩
    | some c2 =>
      by_cases hid2 : connGetID c2 = i
      · exact Or.inr (Or.inr (Or.inl ⟨c2, rfl, by simp [h1, h2, hid2],
          by simp [h1, h2, hid2], by simp [h1, h2, hid2]⟩))
      · exact Or.inl ⟨by simp [h1, h2, hid2], by simp [h1, h2, hid2]⟩
  | some c1 =>
    by_cases hid : connGetID c1 = i
    · cases h2 : mapFind fd s.monitorConns with
      | none => exact Or.inr (Or.inl ⟨c1, rfl, by simp [h1, h2, hid],
          by simp [h1, h2, hid], by simp [h1, h2, hid]⟩)
      | some c2 =>
        by_cases hid2 : connGetID c2 = i
        · exact Or.inr (Or.inr (Or.inr ⟨c1, c2, rfl, rfl, by simp [h1, h2, hid, hid2],
            by simp [h1, h2, hid, hid2], by simp [h1, h2, hid, hid2]⟩))
        · exact Or.inr (Or.inl ⟨c1, rfl, by simp [h1, h2, hid, hid2],
            by simp [h1, h2, hid, hid2], by simp [h1, h2, hid, hid2]⟩)
    · cases h2 : mapFind fd s.monitorConns with
      | none => exact Or.inl ⟨by simp [h1, h2, hid], by simp [h1, h2, hid]⟩
      | some c2 =>
        by_cases hid2 : connGetID c2 = i
        · exact Or.inr (Or.inr (Or.inl ⟨c2, rfl, by simp [h1, h2, hid, hid2],
            by simp [h1, h2, hid, hid2], by simp [h1, h2, hid, hid2]⟩))
        · exact Or.inl ⟨by simp [h1, h2, hid, hid2], by simp [h1, h2, hid, hid2]⟩

theorem addConnection_refsNodup (maxClients : Int) (cNew : Conn) (s : WorkerState)
    (hnd : RefsNodup s) (hfresh : cNew.ref ∉ tableRefs s) :
    RefsNodup (addConnection maxClients cNew s).2 := by
  rcases addConnection_table_cases maxClients cNew s with ⟨hA, hB⟩ | ⟨hnone, hA, hB⟩
  · rw [RefsNodup, tableRefs, hA, hB]
    exact hnd
  · rw [RefsNodup, tableRefs, hA, hB, List.map_append,
      refs_mapUpdate _ _ (by intro d; simp [connSetID])]
    obtain ⟨l1, l2, he, hi⟩ := mapInsert_split cNew.fd cNew hnone
    rw [hi, List.map_append, List.map_cons]
    have hnd' : ((l1.map entryRef ++ (l2.map entryRef ++ s.monitorConns.map entryRef))).Nodup := by
      have hx := hnd
      rw [RefsNodup, tableRefs, he] at hx
      simpa [List.map_append, List.append_assoc] using hx
    have hfresh' : cNew.ref ∉
        l1.map entryRef ++ (l2.map entryRef ++ s.monitorConns.map entryRef) := by
      rw [tableRefs, he] at hfresh
      simpa [List.map_append, List.append_assoc] using hfresh
    rw [List.append_assoc, List.cons_append]
    exact nodup_mid hnd' hfresh'

theorem removeConnection_refs_spec (fd : Int) (s : WorkerState) (hnd : RefsNodup s) :
    RefsNodup (removeConnection fd s).1 ∧
    ∀ d ∈ (removeConnection fd s).2,
      ∀ q, (q ∈ (removeConnection fd s).1.conns ∨ q ∈ (removeConnection fd s).1.monitorConns) →
        q.2.ref ≠ d.ref := by
  rcases removeConnection_cases fd s with ⟨_, _, hs, hdes⟩ | ⟨c1, h1, _, hA, hB, hdes⟩ |
    ⟨c2, _, h2, hA, hB, hdes⟩ | ⟨c1, c2, h1, h2, hA, hB, hdes⟩
  · rw [hs, hdes]
    exact ⟨hnd, by simp⟩
  · have hmem : (fd, c1) ∈ s.conns := mapFind_mem h1
    constructor
    · rw [RefsNodup, tableRefs, hA, hB]
      exact nodup_refs_of_sublists hnd (mapErase_sublist fd s.conns) (List.Sublist.refl _)
    · intro d hd q hq
      have hdc : d = c1 := by
        rw [hdes] at hd
        simpa using hd
      rw [hdc]
      rcases hq with hq | hq
      · rw [hA] at hq
        obtain ⟨hqm, hqfd⟩ := mem_mapErase' hq
        exact (ref_not_elsewhere_conns hnd hmem).1 q hqm hqfd
      · rw [hB] at hq
        exact (ref_not_elsewhere_conns hnd hmem).2 q hq
  · have hmem : (fd, c2) ∈ s.monitorConns := mapFind_mem h2
    constructor
    · rw [RefsNodup, tableRefs, hA, hB]
      exact nodup_refs_of_sublists hnd (List.Sublist.refl _) (mapErase_sublist fd s.monitorConns)
    · intro d hd q hq
      have hdc : d = c2 := by
        rw [hdes] at hd
        simpa using hd
      rw [hdc]
      rcases hq with hq | hq
      · rw [hA] at hq
        exact (ref_not_elsewhere_monitors hnd hmem).2 q hq
      · rw [hB] at hq
        obtain ⟨hqm, hqfd⟩ := mem_mapErase' hq
        exact (ref_not_elsewhere_monitors hnd hmem).1 q hqm hqfd
  · have hmem1 : (fd, c1) ∈ s.conns := mapFind_mem h1
    have hmem2 : (fd, c2) ∈ s.monitorConns := mapFind_mem h2
    constructor
    · rw [RefsNodup, tableRefs, hA, hB]
      exact nodup_refs_of_sublists hnd (mapErase_sublist fd s.conns)
        (mapErase_sublist fd s.monitorConns)
    · intro d hd q hq
      have hdc : d = c1 ∨ d = c2 := by
        rw [hdes] at hd
        simpa using hd
      rcases hq with hq | hq
      · rw [hA] at hq
        obtain ⟨hqm, hqfd⟩ := mem_mapErase' hq
        rcases hdc with hdc | hdc <;> rw [hdc]
        · exact (ref_not_elsewhere_conns hnd hmem1).1 q hqm hqfd
        · exact (ref_not_elsewhere_monitors hnd hmem2).2 q hqm
      · rw [hB] at hq
        obtain ⟨hqm, hqfd⟩ := mem_mapErase' hq
        rcases hdc with hdc | hdc <;> rw [hdc]
        · exact (ref_not_elsewhere_conns hnd hmem1).2 q hqm
        · exact (ref_not_elsewhere_monitors hnd hmem2).1 q hqm hqfd

theorem removeConnectionByID_refs_spec (fd : Int) (i : Nat) (s : WorkerState)
    (hnd : RefsNodup s) :
    RefsNodup (removeConnectionByID fd i s).1 ∧
    ∀ d ∈ (removeConnectionByID fd i s).2,
      ∀ q, (q ∈ (removeConnectionByID fd i s).1.conns ∨
            q ∈ (removeConnectionByID fd i s).1.monitorConns) →
        q.2.ref ≠ d.ref := by
  rcases removeConnectionByID_cases fd i s with ⟨hs, hdes⟩ | ⟨c1, h1, hA, hB, hdes⟩ |
    ⟨c2, h2, hA, hB, hdes⟩ | ⟨c1, c2, h1, h2, hA, hB, hdes⟩
  · rw [hs, hdes]
    exact ⟨hnd, by simp⟩
  · have hmem : (fd, c1) ∈ s.conns := mapFind_mem h1
    constructor
    · rw [RefsNodup, tableRefs, hA, hB]
      exact nodup_refs_of_sublists hnd (mapErase_sublist fd s.conns) (List.Sublist.refl _)
    · intro d hd q hq
      have hdc : d = c1 := by
        rw [hdes] at hd
        simpa using hd
      rw [hdc]
      rcases hq with hq | hq
      · rw [hA] at hq
        obtain ⟨hqm, hqfd⟩ := mem_mapErase' hq
        exact (ref_not_elsewhere_conns hnd hmem).1 q hqm hqfd
      · rw [hB] at hq
        exact (ref_not_elsewhere_conns hnd hmem).2 q hq
  · have hmem : (fd, c2) ∈ s.monitorConns := mapFind_mem h2
    constructor
    · rw [RefsNodup, tableRefs, hA, hB]
      exact nodup_refs_of_sublists hnd (List.Sublist.refl _) (mapErase_sublist fd s.monitorConns)
    · intro d hd q hq
      have hdc : d = c2 := by
        rw [hdes] at hd
        simpa using hd
      rw [hdc]
      rcases hq with hq | hq
      · rw [hA] at hq
        exact (ref_not_elsewhere_monitors hnd hmem).2 q hq
      · rw [hB] at hq
        obtain ⟨hqm, hqfd⟩ := mem_mapErase' hq
        exact (ref_not_elsewhere_monitors hnd hmem).1 q hqm hqfd
  · have hmem1 : (fd, c1) ∈ s.conns := mapFind_mem h1
    have hmem2 : (fd, c2) ∈ s.monitorConns := mapFind_mem h2
    constructor
    · rw [RefsNodup, tableRefs, hA, hB]
      exact nodup_refs_of_sublists hnd (mapErase_sublist fd s.conns)
        (mapErase_sublist fd s.monitorConns)
    · intro d hd q hq
      have hdc : d = c1 ∨ d = c2 := by
        rw [hdes] at hd
        simpa using hd
      rcases hq with hq | hq
      · rw [hA] at hq
        obtain ⟨hqm, hqfd⟩ := mem_mapErase' hq
        rcases hdc with hdc | hdc <;> rw [hdc]
        · exact (ref_not_elsewhere_conns hnd hmem1).1 q hqm hqfd
        · exact (ref_not_elsewhere_monitors hnd hmem2).2 q hqm
      · rw [hB] at hq
        obtain ⟨hqm, hqfd⟩ := mem_mapErase' hq
        rcases hdc with hdc | hdc <;> rw [hdc]
        · exact (ref_not_elsewhere_conns hnd hmem1).2 q hqm
        · exact (ref_not_elsewhere_monitors hnd hmem2).1 q hqm hqfd

theorem becomeMonitorConn_refsNodup (mc : Conn) (s : WorkerState)
    (hnd : RefsNodup s) (hmc : mapFind mc.fd s.conns = some mc) :
    RefsNodup (becomeMonitorConn mc s) := by
  obtain ⟨hA, hB⟩ := becomeMonitorConn_tables mc s
  have hmem : (mc.fd, mc) ∈ s.conns := mapFind_mem hmc
  rw [RefsNodup, tableRefs, hA, hB, List.map_append,
    refs_mapUpdate mc.fd (fun c => { c with monitorFlag := true }) (fun c => rfl)
      (mapAssign mc.fd mc s.monitorConns)]
  obtain ⟨m1, mid, m2, he, _, hi⟩ := mapAssign_split mc.fd mc s.monitorConns
  rw [hi, List.map_append, List.map_cons]
  rw [← List.append_assoc]
  have hm1 : ∀ q ∈ m1, q ∈ s.monitorConns := by
    intro q hq
    rw [he]
    exact List.mem_append.mpr (Or.inl (List.mem_append.mpr (Or.inl hq)))
  have hm2 : ∀ q ∈ m2, q ∈ s.monitorConns := by
    intro q hq
    rw [he]
    exact List.mem_append.mpr (Or.inr hq)
  apply nodup_mid
  · have hsub2 : List.Sublist (m1 ++ m2) s.monitorConns := by
      rw [he, List.append_assoc]
      exact List.Sublist.append_left (List.sublist_append_right mid m2) m1
    have hx := nodup_refs_of_sublists hnd (mapErase_sublist mc.fd s.conns) hsub2
    simpa [List.map_append, List.append_assoc] using hx
  · intro hin
    rcases List.mem_append.mp hin with hin | hin
    · rcases List.mem_append.mp hin with hin | hin
      · rcases List.mem_map.mp hin with ⟨q, hq, hqe⟩
        obtain ⟨hqm, hqfd⟩ := mem_mapErase' hq
        exact (ref_not_elsewhere_conns hnd hmem).1 q hqm hqfd hqe
      · rcases List.mem_map.mp hin with ⟨q, hq, hqe⟩
        exact (ref_not_elsewhere_conns hnd hmem).2 q (hm1 q hq) hqe
    · rcases List.mem_map.mp hin with ⟨q, hq, hqe⟩
      exact (ref_not_elsewhere_conns hnd hmem).2 q (hm2 q hq) hqe

/-- Claim C8: table exclusivity — with no connection object occurring
twice across the two tables, admission of a fresh object, removal,
removal-by-id and monitor promotion all preserve this, and a removed
(destroyed) connection's identity no longer occurs in either table, so
no connection outlives its removal. -/
theorem table_exclusivity (maxClients : Int) (cNew mc : Conn) (fd : Int) (i : Nat)
    (s : WorkerState) (hnd : RefsNodup s)
    (hfresh : cNew.ref ∉ tableRefs s)
    (hmc : mapFind mc.fd s.conns = some mc) :
    RefsNodup (addConnection maxClients cNew s).2 ∧
    (RefsNodup (removeConnection fd s).1 ∧
      ∀ d ∈ (removeConnection fd s).2,
        ∀ q, (q ∈ (removeConnection fd s).1.conns ∨
              q ∈ (removeConnection fd s).1.monitorConns) → q.2.ref ≠ d.ref) ∧
    (RefsNodup (removeConnectionByID fd i s).1 ∧
      ∀ d ∈ (removeConnectionByID fd i s).2,
        ∀ q, (q ∈ (removeConnectionByID fd i s).1.conns ∨
              q ∈ (removeConnectionByID fd i s).1.monitorConns) → q.2.ref ≠ d.ref) ∧
    RefsNodup (becomeMonitorConn mc s) :=
  ⟨addConnection_refsNodup maxClients cNew s hnd hfresh,
   removeConnection_refs_spec fd s hnd,
   removeConnectionByID_refs_spec fd i s hnd,
   becomeMonitorConn_refsNodup mc s hnd hmc⟩

theorem table_exclusivity_witness :
    RefsNodup (becomeMonitorConn cK wsKill) :=
  (table_exclusivity 5 cB cK 4 3 wsKill (by decide) (by decide) (by decide)).2.2.2

end Kvrocks
